import Mathlib

/-!
Shallow embedding of the epd-spectra e-paper display driver.

The embedding covers the two core modules:

* `src/graphics.rs` — the `TriColor` color model, `DisplayRotation`, and the
  `Display` framebuffer with its `draw_iter` pixel-write algorithm.
* `src/driver.rs` — the `Epd` protocol driver; its wire-level behaviour is
  modelled as the trace of events it emits on the data/command line, the reset
  line, the busy line and the serial bus on a successful (error-free) run.
  Each Lean definition mirrors one Rust function and composes sub-traces in
  the same order as the Rust function makes its calls.

Machine bytes are modelled as `Nat` (all buffer bytes stay below 256; bit
operations use `&&&`, `|||` on `Nat`).  The `assert!(index < IMAGE_SIZE)`
in `draw_iter` is modelled by returning `Option`: `none` means the assertion
(a Rust panic) fired.
-/

/-- Colors supported by the e-paper displays (`TriColor` in graphics.rs). -/
inductive TriColor where
  | white
  | black
  | red
deriving DecidableEq, Repr

/-- `impl From<RawU2> for TriColor`: the raw 2-bit value is tested for the
black bit (0b01) first, then the red bit (0b10), else white. -/
def TriColor.fromRawU2 (data : Nat) : TriColor :=
  if data &&& 0b01 ≠ 0 then TriColor.black
  else if data &&& 0b10 ≠ 0 then TriColor.red
  else TriColor.white

/-- 24-bit RGB color (`Rgb888` of embedded_graphics), one byte per channel. -/
structure Rgb888 where
  r : Nat
  g : Nat
  b : Nat
deriving DecidableEq, Repr

/-- `impl From<TriColor> for Rgb888` in graphics.rs. -/
def TriColor.toRgb888 : TriColor → Rgb888
  | TriColor.white => ⟨255, 255, 255⟩
  | TriColor.black => ⟨0, 0, 0⟩
  | TriColor.red => ⟨255, 0, 0⟩

/-- `impl From<Rgb888> for TriColor` in graphics.rs: nearest-label
classification via chroma and brightness (`u8::MAX / 3 = 85`,
`u8::MAX / 2 = 127`, `max - min` on `u8` never underflows). -/
def TriColor.ofRgb888 (p : Rgb888) : TriColor :=
  let mn := min (min p.r p.g) p.b
  let mx := max (max p.r p.g) p.b
  let chroma := mx - mn
  let brightness := mx
  if chroma > 255 / 3 ∧ p.r > p.g ∧ p.r > p.b then TriColor.red
  else if brightness > 255 / 2 then TriColor.white
  else TriColor.black

/-- Display rotation, only 90° increments supported (`DisplayRotation`). -/
inductive DisplayRotation where
  | rotate0
  | rotate90
  | rotate180
  | rotate270
deriving DecidableEq, Repr

/-- The framebuffer `Display<SIZE_V, SIZE_H, IMAGE_SIZE>` of graphics.rs.
The three const-generic parameters become `Nat` fields; the two fixed-size
byte arrays become byte lists (their length is `imageSize` in any state
reachable from `Display.mkDefault`). -/
structure Display where
  sizeV : Nat
  sizeH : Nat
  imageSize : Nat
  buffer_black : List Nat
  buffer_red : List Nat
  rotation : DisplayRotation
deriving DecidableEq, Repr

/-- `impl Default for Display`: both planes zero-filled, rotation 0°. -/
def Display.mkDefault (sizeV sizeH imageSize : Nat) : Display :=
  { sizeV := sizeV
    sizeH := sizeH
    imageSize := imageSize
    buffer_black := List.replicate imageSize 0
    buffer_red := List.replicate imageSize 0
    rotation := DisplayRotation.rotate0 }

/-- `OriginDimensions::size`: logical (width, height) under the current
rotation — `(SIZE_H, SIZE_V)` at 0°/180°, `(SIZE_V, SIZE_H)` at 90°/270°. -/
def Display.size (d : Display) : Nat × Nat :=
  match d.rotation with
  | DisplayRotation.rotate0 | DisplayRotation.rotate180 => (d.sizeH, d.sizeV)
  | DisplayRotation.rotate90 | DisplayRotation.rotate270 => (d.sizeV, d.sizeH)

/-- In-place byte update `l[i] = f l[i]` used to model `buffer[index] |= mask`
and `buffer[index] &= !mask` (the index is always in bounds when the Rust
assertion passed and the list has length `imageSize`). -/
def setByte (l : List Nat) (i : Nat) (f : Nat → Nat) : List Nat :=
  l.set i (f (l.getD i 0))

/-- One iteration of the `draw_iter` loop body in graphics.rs: rotation
remapping, clipping, mask/index computation, the bounds assertion (modelled
as `Option`), and the per-color bit updates.  `!mask` on `u8` is
`255 - mask` since `mask` is a power of two below 256. -/
def Display.writePixel (d : Display) (px py : Int) (color : TriColor) : Option Display :=
  let xy : Int × Int :=
    match d.rotation with
    | DisplayRotation.rotate0 => (px, py)
    | DisplayRotation.rotate90 => ((d.sizeH : Int) - 1 - py, px)
    | DisplayRotation.rotate180 => ((d.sizeH : Int) - 1 - px, (d.sizeV : Int) - 1 - py)
    | DisplayRotation.rotate270 => (py, (d.sizeV : Int) - 1 - px)
  let x := xy.1
  let y := xy.2
  if x < 0 ∨ x ≥ (d.sizeH : Int) ∨ y < 0 ∨ y ≥ (d.sizeV : Int) then
    some d
  else
    let mask : Nat := 2 ^ (7 - x.toNat % 8)
    let index : Nat := y.toNat * d.sizeH / 8 + x.toNat / 8
    if index < d.imageSize then
      some (match color with
        | TriColor.white =>
          { d with
            buffer_black := setByte d.buffer_black index (fun b => b &&& (255 - mask))
            buffer_red := setByte d.buffer_red index (fun b => b &&& (255 - mask)) }
        | TriColor.black =>
          { d with
            buffer_black := setByte d.buffer_black index (fun b => b ||| mask)
            buffer_red := setByte d.buffer_red index (fun b => b &&& (255 - mask)) }
        | TriColor.red =>
          { d with
            buffer_black := setByte d.buffer_black index (fun b => b &&& (255 - mask))
            buffer_red := setByte d.buffer_red index (fun b => b ||| mask) })
    else
      none

/-- `draw_iter`: fold `writePixel` over the pixel iterator; a fired
assertion (panic) propagates as `none`. -/
def Display.drawIter (d : Display) (pixels : List ((Int × Int) × TriColor)) : Option Display :=
  pixels.foldl (fun acc p => acc.bind (fun d => d.writePixel p.1.1 p.1.2 p.2)) (some d)

/-- `set_rotation` in graphics.rs. -/
def Display.setRotation (d : Display) (r : DisplayRotation) : Display :=
  { d with rotation := r }

/-- The command opcodes of driver.rs (`enum Command`). -/
inductive Command where
  | psr
  | powerOff
  | powerOn
  | bufferBlack
  | refresh
  | bufferRed
  | activeTemperature
  | inputTemperature
deriving DecidableEq, Repr

/-- The numeric discriminants of `enum Command` (`cmd as u8`). -/
def Command.toByte : Command → Nat
  | Command.psr => 0x00
  | Command.powerOff => 0x02
  | Command.powerOn => 0x04
  | Command.bufferBlack => 0x10
  | Command.refresh => 0x12
  | Command.bufferRed => 0x13
  | Command.activeTemperature => 0xe0
  | Command.inputTemperature => 0xe5

/-- Config register data for sizes other than 4.2" (driver.rs constants). -/
def REG_DATA_SOFT_RESET : List Nat := [0x0e]

/-- Input temperature register data. -/
def REG_DATA_INPUT_TEMP : List Nat := [0x19]

/-- Active temperature register data. -/
def REG_DATA_ACTIVE_TEMP : List Nat := [0x02]

/-- Panel configuration (PSR) register data. -/
def REG_DATA_PSR : List Nat := [0xcf, 0x8d]

/-- One observable action of the driver on its collaborators: the
data/command line, the reset line, one `spi.write` call, one busy-wait
loop, or one `delay_ms` call. -/
inductive Event where
  | dcLow
  | dcHigh
  | rstLow
  | rstHigh
  | busWrite (bytes : List Nat)
  | busyWait
  | delayMs (ms : Nat)
deriving DecidableEq, Repr

/-- The driver state that the trace semantics depends on: only the
configured chunk size (`spi_chunk_size` field of `Epd`; the pins and the
typestate marker carry no data relevant to the emitted byte sequence). -/
structure Epd where
  spi_chunk_size : Nat
deriving DecidableEq, Repr

/-- Fuel-indexed core of Rust's `data.chunks(cm1 + 1)`: repeatedly split off
the next `cm1 + 1` bytes.  The fuel starts at `data.length`, which always
suffices since every step consumes at least one byte. -/
def chunksAux (cm1 : Nat) : Nat → List Nat → List (List Nat)
  | _, [] => []
  | 0, l => [l]
  | fuel + 1, l => l.take (cm1 + 1) :: chunksAux cm1 fuel (l.drop (cm1 + 1))

/-- `data.chunks(cm1 + 1)` of Rust: successive slices of length `cm1 + 1`
(the last one possibly shorter); an empty slice yields no chunks. -/
def chunksPos (cm1 : Nat) (l : List Nat) : List (List Nat) :=
  chunksAux cm1 l.length l

/-- The list of `spi.write` calls made by `Epd::write` for one payload:
chunked when `spi_chunk_size > 0`, a single call otherwise. -/
def Epd.writeCalls (e : Epd) (data : List Nat) : List (List Nat) :=
  if 0 < e.spi_chunk_size then chunksPos (e.spi_chunk_size - 1) data
  else [data]

/-- Trace of `Epd::write`: one `busWrite` event per `spi.write` call. -/
def Epd.writeTrace (e : Epd) (data : List Nat) : List Event :=
  (e.writeCalls data).map Event.busWrite

/-- Trace of `Epd::send_data`: dc low, write the opcode byte, dc high,
write the payload. -/
def Epd.sendData (e : Epd) (cmd : Command) (data : List Nat) : List Event :=
  [Event.dcLow] ++ e.writeTrace [cmd.toByte] ++ [Event.dcHigh] ++ e.writeTrace data

/-- Trace of `Epd::reset`: the hardware reset pulse with its delays. -/
def Epd.reset (_e : Epd) : List Event :=
  [Event.delayMs 1, Event.rstHigh, Event.delayMs 5, Event.rstLow,
   Event.delayMs 10, Event.rstHigh, Event.delayMs 5]

/-- Trace of `Epd::soft_reset`: PSR opcode with soft-reset payload, then
busy-wait. -/
def Epd.softReset (e : Epd) : List Event :=
  e.sendData Command.psr REG_DATA_SOFT_RESET ++ [Event.busyWait]

/-- Trace of `Epd::power_on`: power-on opcode with payload `0x00`, then
busy-wait. -/
def Epd.powerOn (e : Epd) : List Event :=
  e.sendData Command.powerOn [0x0] ++ [Event.busyWait]

/-- Trace of `Epd::display_refresh`: refresh opcode with payload `0x00`,
then busy-wait. -/
def Epd.displayRefresh (e : Epd) : List Event :=
  e.sendData Command.refresh [0x0] ++ [Event.busyWait]

/-- Trace of a successful `Epd::init`: dc high, hardware reset pulse, soft
reset, input temperature, active temperature, panel configuration. -/
def Epd.init (e : Epd) : List Event :=
  [Event.dcHigh] ++ e.reset ++ e.softReset ++
    e.sendData Command.inputTemperature REG_DATA_INPUT_TEMP ++
    e.sendData Command.activeTemperature REG_DATA_ACTIVE_TEMP ++
    e.sendData Command.psr REG_DATA_PSR

/-- Trace of a successful `Epd::update` on a display whose two planes hold
the given byte lists: black plane, red plane, power on, refresh. -/
def Epd.update (e : Epd) (black red : List Nat) : List Event :=
  e.sendData Command.bufferBlack black ++ e.sendData Command.bufferRed red ++
    e.powerOn ++ e.displayRefresh

/-- Trace of a successful `Epd::power_off`. -/
def Epd.powerOff (e : Epd) : List Event :=
  e.sendData Command.powerOff [0x0] ++
    [Event.busyWait, Event.dcLow, Event.delayMs 150, Event.rstLow]

/-- A byte-level view of a trace: `busWrite` events are flattened to their
individual bytes, so transcripts can be compared independently of how the
chunking policy grouped the bus writes. -/
inductive WireEvent where
  | dcLow
  | dcHigh
  | rstLow
  | rstHigh
  | busyWait
  | delayMs (ms : Nat)
  | byte (b : Nat)
deriving DecidableEq, Repr

/-- Flatten one event to its byte-level view. -/
def Event.flat : Event → List WireEvent
  | Event.dcLow => [WireEvent.dcLow]
  | Event.dcHigh => [WireEvent.dcHigh]
  | Event.rstLow => [WireEvent.rstLow]
  | Event.rstHigh => [WireEvent.rstHigh]
  | Event.busWrite bs => bs.map WireEvent.byte
  | Event.busyWait => [WireEvent.busyWait]
  | Event.delayMs n => [WireEvent.delayMs n]

/-- Byte-level view of a whole trace. -/
def flatTrace (t : List Event) : List WireEvent :=
  (t.map Event.flat).flatten

/-- Whether an event is a reset-line transition. -/
def Event.isRst : Event → Bool
  | Event.rstLow => true
  | Event.rstHigh => true
  | _ => false

/-- Modelled from the spec, for claim C2 as stated: the rotation remapping
written exactly as the claim words it — 0°: `(x,y)`; 90°: `(H-1-y, x)`;
180°: `(H-1-x, W-1-y)`; 270°: `(y, W-1-x)` with `H` the physical height
(`sizeV`) and `W` the physical width (`sizeH`). -/
def specMapAsStated (hght wdth : Nat) (rot : DisplayRotation) (x y : Int) : Int × Int :=
  match rot with
  | DisplayRotation.rotate0 => (x, y)
  | DisplayRotation.rotate90 => ((hght : Int) - 1 - y, x)
  | DisplayRotation.rotate180 => ((hght : Int) - 1 - x, (wdth : Int) - 1 - y)
  | DisplayRotation.rotate270 => (y, (wdth : Int) - 1 - x)

/-- The amended rotation remapping: the claim with `W` and `H` exchanged in
the 90°/180°/270° formulas, matching the source — 90°: `(W-1-y, x)`;
180°: `(W-1-x, H-1-y)`; 270°: `(y, H-1-x)`. -/
def specMapAmended (hght wdth : Nat) (rot : DisplayRotation) (x y : Int) : Int × Int :=
  match rot with
  | DisplayRotation.rotate0 => (x, y)
  | DisplayRotation.rotate90 => ((wdth : Int) - 1 - y, x)
  | DisplayRotation.rotate180 => ((wdth : Int) - 1 - x, (hght : Int) - 1 - y)
  | DisplayRotation.rotate270 => (y, (hght : Int) - 1 - x)

/-- Modelled from the claim's words, parameterized by the remapping: map the
logical coordinate, drop the write if the physical coordinate is out of
bounds, otherwise touch exactly the byte `py * (W/8) + px/8` under bit mask
`1 <<< (7 - px % 8)`, White clearing both planes' bit, Black setting the
black bit and clearing red, Red setting the red bit and clearing black. -/
def specWriteWith (remap : Nat → Nat → DisplayRotation → Int → Int → Int × Int)
    (d : Display) (x y : Int) (c : TriColor) : Display :=
  let p := remap d.sizeV d.sizeH d.rotation x y
  let px := p.1
  let py := p.2
  if 0 ≤ px ∧ px < (d.sizeH : Int) ∧ 0 ≤ py ∧ py < (d.sizeV : Int) then
    let index := py.toNat * (d.sizeH / 8) + px.toNat / 8
    let mask : Nat := 2 ^ (7 - px.toNat % 8)
    match c with
    | TriColor.white =>
      { d with
        buffer_black := setByte d.buffer_black index (fun b => b &&& (255 - mask))
        buffer_red := setByte d.buffer_red index (fun b => b &&& (255 - mask)) }
    | TriColor.black =>
      { d with
        buffer_black := setByte d.buffer_black index (fun b => b ||| mask)
        buffer_red := setByte d.buffer_red index (fun b => b &&& (255 - mask)) }
    | TriColor.red =>
      { d with
        buffer_black := setByte d.buffer_black index (fun b => b &&& (255 - mask))
        buffer_red := setByte d.buffer_red index (fun b => b ||| mask) }
  else d

/-- Claim C2's pixel write exactly as stated. -/
def specWriteAsStated (d : Display) (x y : Int) (c : TriColor) : Display :=
  specWriteWith specMapAsStated d x y c

/-- The amended pixel write (claim C2 with `W`/`H` exchanged in the
rotation formulas). -/
def specWriteAmended (d : Display) (x y : Int) (c : TriColor) : Display :=
  specWriteWith specMapAmended d x y c

/-- The plane-exclusivity invariant of the framebuffer: at every byte index
the black-plane byte and the red-plane byte share no set bit. -/
def planesExclusive (d : Display) : Prop :=
  ∀ j, d.buffer_black.getD j 0 &&& d.buffer_red.getD j 0 = 0

/-- Flattening the chunks recovers the payload, for any fuel. -/
theorem chunksAux_flatten (cm1 fuel : Nat) (l : List Nat) :
    (chunksAux cm1 fuel l).flatten = l := by
  induction fuel generalizing l with
  | zero => cases l <;> simp [chunksAux]
  | succ f ih =>
    cases l with
    | nil => simp [chunksAux]
    | cons a t => simp [chunksAux, ih]

/-- With enough fuel every chunk has length at most `cm1 + 1`. -/
theorem chunksAux_length_le (cm1 fuel : Nat) (l : List Nat) (hfuel : l.length ≤ fuel) :
    ∀ g ∈ chunksAux cm1 fuel l, g.length ≤ cm1 + 1 := by
  induction fuel generalizing l with
  | zero =>
    cases l with
    | nil => simp [chunksAux]
    | cons a t => simp at hfuel
  | succ f ih =>
    cases l with
    | nil => simp [chunksAux]
    | cons a t =>
      intro g hg
      simp only [chunksAux, List.mem_cons] at hg
      rcases hg with rfl | hg
      · simp [List.length_take]
      · exact ih _ (by simp at hfuel ⊢; omega) g hg

/-- Flattening `chunksPos` recovers the payload. -/
theorem chunksPos_flatten (cm1 : Nat) (l : List Nat) : (chunksPos cm1 l).flatten = l :=
  chunksAux_flatten cm1 l.length l

/-- Every `chunksPos` chunk has length at most `cm1 + 1`. -/
theorem chunksPos_length_le (cm1 : Nat) (l : List Nat) :
    ∀ g ∈ chunksPos cm1 l, g.length ≤ cm1 + 1 :=
  chunksAux_length_le cm1 l.length l (Nat.le_refl _)

/-- The bytes passed to the `spi.write` calls concatenate to the payload. -/
theorem writeCalls_flatten (e : Epd) (data : List Nat) :
    (e.writeCalls data).flatten = data := by
  unfold Epd.writeCalls
  split
  · exact chunksPos_flatten _ data
  · simp

/-- CLAIM C5 — Chunking: with chunk size 0 the whole payload goes out in
exactly one bus-write call; with a positive chunk size the bus-write calls
receive successive groups of length at most the chunk size whose
concatenation in call order is the original payload. -/
theorem C5_chunking (e : Epd) (data : List Nat) :
    (e.spi_chunk_size = 0 → e.writeCalls data = [data]) ∧
    (0 < e.spi_chunk_size →
      (∀ g ∈ e.writeCalls data, g.length ≤ e.spi_chunk_size) ∧
      (e.writeCalls data).flatten = data) := by
  constructor
  · intro h0
    unfold Epd.writeCalls
    rw [if_neg (by omega)]
  · intro hpos
    refine ⟨?_, writeCalls_flatten e data⟩
    intro g hg
    unfold Epd.writeCalls at hg
    rw [if_pos hpos] at hg
    have := chunksPos_length_le (e.spi_chunk_size - 1) data g hg
    omega

/-- Witness for C5 at the claim's own example: chunk size 3, 7-byte payload,
groups of lengths [3,3,1] concatenating back to the payload. -/
theorem C5_chunking_witness :
    ((Epd.mk 3).writeCalls [1, 2, 3, 4, 5, 6, 7]).map List.length = [3, 3, 1] ∧
    ((Epd.mk 3).writeCalls [1, 2, 3, 4, 5, 6, 7]).flatten = [1, 2, 3, 4, 5, 6, 7] :=
  ⟨by decide, ((C5_chunking (Epd.mk 3) [1, 2, 3, 4, 5, 6, 7]).2 (by decide)).2⟩

/-- Byte-level view distributes over trace concatenation. -/
theorem flatTrace_append (a b : List Event) :
    flatTrace (a ++ b) = flatTrace a ++ flatTrace b := by
  simp [flatTrace]

/-- Byte-level view of an empty trace. -/
theorem flatTrace_nil : flatTrace [] = [] := rfl

/-- Byte-level view of a trace, one event at a time. -/
theorem flatTrace_cons (ev : Event) (t : List Event) :
    flatTrace (ev :: t) = ev.flat ++ flatTrace t := by
  simp [flatTrace]

/-- The byte-level view of `Epd::write` is the payload itself, whatever the
chunk size. -/
theorem flatTrace_writeTrace (e : Epd) (data : List Nat) :
    flatTrace (e.writeTrace data) = data.map WireEvent.byte := by
  simp only [flatTrace, Epd.writeTrace, List.map_map]
  have h1 : Event.flat ∘ Event.busWrite = fun bs => bs.map WireEvent.byte := by
    funext bs; rfl
  rw [h1, ← List.map_flatten WireEvent.byte, writeCalls_flatten]

/-- The byte-level view of `Epd::send_data`: dc low, the opcode byte,
dc high, the payload bytes. -/
theorem flatTrace_sendData (e : Epd) (cmd : Command) (data : List Nat) :
    flatTrace (e.sendData cmd data) =
      [WireEvent.dcLow, WireEvent.byte cmd.toByte, WireEvent.dcHigh] ++
        data.map WireEvent.byte := by
  simp [Epd.sendData, flatTrace_append, flatTrace_cons, flatTrace_nil, flatTrace_writeTrace,
    Event.flat]

/-- CLAIM C3 — Initialization transcript: for every driver configuration, a
successful `init` emits, after the initial dc-high and the reset pulse,
exactly dc-low, opcode 0x00, dc-high, payload 0x0E, busy-wait, then opcode
0xE5 with payload 0x19, then opcode 0xE0 with payload 0x02, then opcode
0x00 with payload 0xCF 0x8D, each command framed dc-low + opcode + dc-high
+ payload; the reset pulse (the only part before this sequence) writes
nothing to the bus, so these are the only bus bytes of `init`. -/
theorem C3_init_transcript (e : Epd) :
    flatTrace e.init =
      [WireEvent.dcHigh] ++ flatTrace e.reset ++
        [WireEvent.dcLow, WireEvent.byte 0x00, WireEvent.dcHigh, WireEvent.byte 0x0e,
         WireEvent.busyWait,
         WireEvent.dcLow, WireEvent.byte 0xe5, WireEvent.dcHigh, WireEvent.byte 0x19,
         WireEvent.dcLow, WireEvent.byte 0xe0, WireEvent.dcHigh, WireEvent.byte 0x02,
         WireEvent.dcLow, WireEvent.byte 0x00, WireEvent.dcHigh, WireEvent.byte 0xcf,
         WireEvent.byte 0x8d] ∧
    ∀ w ∈ flatTrace e.reset, ∀ b : Nat, w ≠ WireEvent.byte b := by
  constructor
  · simp [Epd.init, Epd.softReset, flatTrace_append, flatTrace_cons, flatTrace_nil,
      flatTrace_sendData, Command.toByte, Event.flat,
      REG_DATA_SOFT_RESET, REG_DATA_INPUT_TEMP, REG_DATA_ACTIVE_TEMP, REG_DATA_PSR]
  · intro w hw b
    rintro rfl
    simp [Epd.reset, flatTrace, Event.flat] at hw

/-- CLAIM C4 — Transmit-and-refresh order: a successful `update` writes the
full black plane under opcode 0x10, the full red plane under opcode 0x13,
then opcode 0x04 with payload 0x00 and a busy-wait, then opcode 0x12 with
payload 0x00 and a busy-wait — and nothing else. -/
theorem C4_update_transcript (e : Epd) (black red : List Nat) :
    flatTrace (e.update black red) =
      [WireEvent.dcLow, WireEvent.byte 0x10, WireEvent.dcHigh] ++
        black.map WireEvent.byte ++
      ([WireEvent.dcLow, WireEvent.byte 0x13, WireEvent.dcHigh] ++
        red.map WireEvent.byte) ++
      [WireEvent.dcLow, WireEvent.byte 0x04, WireEvent.dcHigh, WireEvent.byte 0x00,
       WireEvent.busyWait,
       WireEvent.dcLow, WireEvent.byte 0x12, WireEvent.dcHigh, WireEvent.byte 0x00,
       WireEvent.busyWait] := by
  simp [Epd.update, Epd.powerOn, Epd.displayRefresh, flatTrace_append, flatTrace_cons,
    flatTrace_nil, flatTrace_sendData, Command.toByte, Event.flat]

/-- `send_data` never touches the reset line. -/
theorem sendData_isRst (e : Epd) (cmd : Command) (data : List Nat) :
    ∀ ev ∈ e.sendData cmd data, ev.isRst = false := by
  intro ev hev
  cases ev <;> try rfl
  all_goals simp [Epd.sendData, Epd.writeTrace] at hev

/-- `soft_reset` never touches the reset line. -/
theorem softReset_isRst (e : Epd) : ∀ ev ∈ e.softReset, ev.isRst = false := by
  intro ev hev
  simp only [Epd.softReset, List.mem_append] at hev
  rcases hev with h | h
  · exact sendData_isRst e _ _ ev h
  · simp only [List.mem_singleton] at h
    subst h; rfl

/-- CLAIM C7 — Reset pulse: during initialization the reset line goes high,
then after a delay of at least 1 ms low, then after a delay of at least
10 ms high, followed by a delay of at least 5 ms, and no other reset-line
transition occurs anywhere in the initialization. -/
theorem C7_reset_pulse (e : Epd) :
    ∃ pre post d1 d2 d3,
      e.init = pre ++ ([Event.rstHigh, Event.delayMs d1, Event.rstLow, Event.delayMs d2,
        Event.rstHigh, Event.delayMs d3] ++ post) ∧
      (∀ ev ∈ pre, ev.isRst = false) ∧
      (∀ ev ∈ post, ev.isRst = false) ∧
      1 ≤ d1 ∧ 10 ≤ d2 ∧ 5 ≤ d3 := by
  refine ⟨[Event.dcHigh, Event.delayMs 1],
    e.softReset ++ e.sendData Command.inputTemperature REG_DATA_INPUT_TEMP ++
      e.sendData Command.activeTemperature REG_DATA_ACTIVE_TEMP ++
      e.sendData Command.psr REG_DATA_PSR,
    5, 10, 5, ?_, ?_, ?_, by omega, by omega, by omega⟩
  · simp [Epd.init, Epd.reset]
  · decide
  · intro ev hev
    simp only [List.mem_append] at hev
    rcases hev with ((h | h) | h) | h
    · exact softReset_isRst e ev h
    · exact sendData_isRst e _ _ ev h
    · exact sendData_isRst e _ _ ev h
    · exact sendData_isRst e _ _ ev h

/-- An 8-bit one-hot mask shares no bit with its 8-bit complement. -/
theorem mask_land_not : ∀ k < 8, 2 ^ (7 - k) &&& (255 - 2 ^ (7 - k)) = 0 := by
  decide

/-- Clearing the same bit in two exclusive bytes keeps them exclusive. -/
theorem land_clear_clear {b r nm : Nat} (h : b &&& r = 0) :
    (b &&& nm) &&& (r &&& nm) = 0 := by
  apply Nat.eq_of_testBit_eq
  intro i
  have hbit := congrArg (fun n => n.testBit i) h
  simp only [Nat.testBit_land, Nat.zero_testBit] at hbit ⊢
  cases hb : b.testBit i <;> cases hr : r.testBit i <;> cases hnm : nm.testBit i <;>
    simp_all

/-- Setting a mask bit in one byte while clearing it in the other keeps two
exclusive bytes exclusive. -/
theorem land_set_clear {b r m nm : Nat} (h : b &&& r = 0) (hm : m &&& nm = 0) :
    (b ||| m) &&& (r &&& nm) = 0 := by
  apply Nat.eq_of_testBit_eq
  intro i
  have hbit := congrArg (fun n => n.testBit i) h
  have hmbit := congrArg (fun n => n.testBit i) hm
  simp only [Nat.testBit_land, Nat.testBit_lor, Nat.zero_testBit] at hbit hmbit ⊢
  cases hb : b.testBit i <;> cases hr : r.testBit i <;> cases hm' : m.testBit i <;>
    cases hnm : nm.testBit i <;> simp_all

/-- Mirror image of `land_set_clear` for the red plane. -/
theorem land_clear_set {b r m nm : Nat} (h : b &&& r = 0) (hm : m &&& nm = 0) :
    (b &&& nm) &&& (r ||| m) = 0 := by
  apply Nat.eq_of_testBit_eq
  intro i
  have hbit := congrArg (fun n => n.testBit i) h
  have hmbit := congrArg (fun n => n.testBit i) hm
  simp only [Nat.testBit_land, Nat.testBit_lor, Nat.zero_testBit] at hbit hmbit ⊢
  cases hb : b.testBit i <;> cases hr : r.testBit i <;> cases hm' : m.testBit i <;>
    cases hnm : nm.testBit i <;> simp_all

/-- Reading back after `setByte`: the updated byte at the written index
(when it is a real array slot), the old byte elsewhere. -/
theorem getD_setByte (l : List Nat) (i j : Nat) (f : Nat → Nat) :
    (setByte l i f).getD j 0 =
      if i = j ∧ i < l.length then f (l.getD i 0) else l.getD j 0 := by
  by_cases hij : i = j
  · subst hij
    by_cases hlen : i < l.length
    · simp [setByte, List.getD, List.getElem?_set, hlen]
    · rw [setByte, List.set_eq_of_length_le (by omega)]
      simp [hlen]
  · simp [setByte, List.getD, List.getElem?_set, hij]

/-- Updating the same slot of two pointwise-exclusive byte lists with an
exclusivity-preserving pair of byte functions keeps them exclusive. -/
theorem setByte_pair_exclusive {bb br : List Nat}
    (hP : ∀ j, bb.getD j 0 &&& br.getD j 0 = 0) (idx : Nat) (f g : Nat → Nat)
    (hfg : ∀ b r, b &&& r = 0 → f b &&& g r = 0) :
    ∀ j, (setByte bb idx f).getD j 0 &&& (setByte br idx g).getD j 0 = 0 := by
  intro j
  rw [getD_setByte, getD_setByte]
  split
  · rename_i h1
    split
    · exact hfg _ _ (hP idx)
    · rename_i h2
      obtain ⟨he, _⟩ := h1
      subst he
      have hbr : ¬ idx < br.length := fun hh => h2 ⟨rfl, hh⟩
      simp [List.getD, List.getElem?_eq_none (show br.length ≤ idx by omega)]
  · rename_i h1
    split
    · rename_i h2
      obtain ⟨he, _⟩ := h2
      subst he
      have hbb : ¬ idx < bb.length := fun hh => h1 ⟨rfl, hh⟩
      simp [List.getD, List.getElem?_eq_none (show bb.length ≤ idx by omega)]
    · exact hP j

/-- The pixel write preserves plane exclusivity. -/
theorem writePixel_exclusive {d d' : Display} {x y : Int} {c : TriColor}
    (hP : planesExclusive d) (hw : d.writePixel x y c = some d') :
    planesExclusive d' := by
  have hmask : ∀ x' : Int, 2 ^ (7 - x'.toNat % 8) &&& (255 - 2 ^ (7 - x'.toNat % 8)) = 0 :=
    fun x' => mask_land_not (x'.toNat % 8) (Nat.mod_lt _ (by norm_num))
  rcases d with ⟨v, w, isz, bb, br, rot⟩
  cases rot <;> cases c <;>
    · simp only [Display.writePixel] at hw
      split at hw
      · cases hw; exact hP
      · split at hw
        · cases hw
          first
            | exact setByte_pair_exclusive hP _ _ _
                (fun b r h => land_clear_clear h)
            | exact setByte_pair_exclusive hP _ _ _
                (fun b r h => land_set_clear h (hmask _))
            | exact setByte_pair_exclusive hP _ _ _
                (fun b r h => land_clear_set h (hmask _))
        · cases hw

/-- Folding the pixel writes from a failed state stays failed. -/
theorem drawIter_fold_none (ps : List ((Int × Int) × TriColor)) :
    List.foldl (fun acc p => acc.bind (fun d1 : Display => d1.writePixel p.1.1 p.1.2 p.2))
      (none : Option Display) ps = none := by
  induction ps with
  | nil => rfl
  | cons p ps ih =>
    rw [List.foldl_cons]
    exact ih

/-- Unfolding `drawIter` one pixel at a time. -/
theorem drawIter_cons (d : Display) (p : (Int × Int) × TriColor)
    (ps : List ((Int × Int) × TriColor)) :
    d.drawIter (p :: ps) =
      (d.writePixel p.1.1 p.1.2 p.2).bind (fun d1 => d1.drawIter ps) := by
  simp only [Display.drawIter, List.foldl_cons, Option.some_bind]
  cases hw : d.writePixel p.1.1 p.1.2 p.2 with
  | none => simp [drawIter_fold_none]
  | some d1 => simp

/-- Any property preserved by single pixel writes is preserved by
`drawIter`. -/
theorem drawIter_invariant (P : Display → Prop)
    (hstep : ∀ (d : Display) (x y : Int) (c : TriColor) (d' : Display),
      P d → d.writePixel x y c = some d' → P d') :
    ∀ (ps : List ((Int × Int) × TriColor)) (d d' : Display),
      P d → d.drawIter ps = some d' → P d' := by
  intro ps
  induction ps with
  | nil =>
    intro d d' hP h
    simp only [Display.drawIter, List.foldl_nil, Option.some_inj] at h
    exact h ▸ hP
  | cons p ps ih =>
    intro d d' hP h
    rw [drawIter_cons] at h
    cases hw : d.writePixel p.1.1 p.1.2 p.2 with
    | none => rw [hw] at h; cases h
    | some d1 =>
      rw [hw] at h
      exact ih d1 d' (hstep _ _ _ _ _ hP hw) h

/-- The zero-initialized framebuffer has exclusive planes. -/
theorem mkDefault_exclusive (v h i : Nat) : planesExclusive (Display.mkDefault v h i) := by
  intro j
  have h0 : (List.replicate i (0 : Nat)).getD j 0 = 0 := by
    rcases Nat.lt_or_ge j i with hj | hj
    · simp [List.getD, List.getElem?_replicate, hj]
    · exact List.getD_eq_default _ _ (by simpa using hj)
  show (List.replicate i 0).getD j 0 &&& (List.replicate i 0).getD j 0 = 0
  rw [h0]
  decide

/-- CLAIM C1 — Plane exclusivity invariant: from the zero-initialized
framebuffer, after any finite sequence of pixel writes with arbitrary
coordinates and colors, no byte index and bit position has both the
black-plane bit and the red-plane bit set. -/
theorem C1_plane_exclusivity (v h i : Nat) (ps : List ((Int × Int) × TriColor))
    (d' : Display) (hdraw : (Display.mkDefault v h i).drawIter ps = some d') (j k : Nat) :
    ¬((d'.buffer_black.getD j 0).testBit k = true ∧
      (d'.buffer_red.getD j 0).testBit k = true) := by
  have hP : planesExclusive d' :=
    drawIter_invariant planesExclusive
      (fun _ _ _ _ _ => writePixel_exclusive) ps _ d' (mkDefault_exclusive v h i) hdraw
  rintro ⟨hb, hr⟩
  have h0 : (d'.buffer_black.getD j 0 &&& d'.buffer_red.getD j 0).testBit k = false := by
    rw [hP j]
    exact Nat.zero_testBit k
  rw [Nat.testBit_land, hb, hr] at h0
  simp at h0

/-- Witness for C1: drawing one black pixel on a 2×8 display yields a state
whose planes are exclusive at byte 0, bit 7. -/
theorem C1_plane_exclusivity_witness :
    ¬(((Display.mk 2 8 2 [128, 0] [0, 0] DisplayRotation.rotate0).buffer_black.getD 0 0).testBit 7 = true ∧
      ((Display.mk 2 8 2 [128, 0] [0, 0] DisplayRotation.rotate0).buffer_red.getD 0 0).testBit 7 = true) :=
  C1_plane_exclusivity 2 8 2 [((0, 0), TriColor.black)]
    (Display.mk 2 8 2 [128, 0] [0, 0] DisplayRotation.rotate0) (by decide) 0 7

/-- CLAIM C6 — Clip safety: a pixel write at any coordinate outside the
logical width × logical height rectangle of the current rotation returns
the display unchanged (both planes byte-for-byte identical) and does not
fail. -/
theorem C6_clip_safety (d : Display) (x y : Int) (c : TriColor)
    (h : x < 0 ∨ x ≥ (d.size.1 : Int) ∨ y < 0 ∨ y ≥ (d.size.2 : Int)) :
    d.writePixel x y c = some d := by
  rcases d with ⟨v, w, isz, bb, br, rot⟩
  cases rot <;>
    · simp only [Display.size] at h
      simp only [Display.writePixel]
      rw [if_pos (by omega)]

/-- Witness for C6: a write at x = −1 on a 2×8 display leaves it unchanged. -/
theorem C6_clip_safety_witness :
    (Display.mkDefault 2 8 2).writePixel (-1) 0 TriColor.black =
      some (Display.mkDefault 2 8 2) :=
  C6_clip_safety (Display.mkDefault 2 8 2) (-1) 0 TriColor.black (Or.inl (by decide))

/-- The buffer index computed by `draw_iter` stays below
`SIZE_V * (SIZE_H / 8)` when the width is a multiple of 8. -/
theorem index_lt_imageSize {v w x y : Nat} (h8 : w % 8 = 0) (hx : x < w) (hy : y < v) :
    y * w / 8 + x / 8 < v * (w / 8) := by
  obtain ⟨k, rfl⟩ : ∃ k, w = 8 * k := ⟨w / 8, by omega⟩
  have h1 : y * (8 * k) / 8 = y * k := by
    rw [show y * (8 * k) = 8 * (y * k) by ring, Nat.mul_div_cancel_left _ (by norm_num)]
  have h2 : x / 8 < k := (Nat.div_lt_iff_lt_mul (by norm_num)).2 (by omega)
  have h3 : 8 * k / 8 = k := by omega
  rw [h1, h3]
  calc y * k + x / 8 < y * k + k := by omega
    _ = (y + 1) * k := by ring
    _ ≤ v * k := Nat.mul_le_mul_right k (by omega)

/-- On a display whose geometry satisfies the library's own shape constraint
(width divisible by 8 and enough buffer bytes), a single pixel write never
fails the assertion and preserves the geometry fields. -/
theorem writePixel_total {d : Display} (h8 : d.sizeH % 8 = 0)
    (hsz : d.sizeV * (d.sizeH / 8) ≤ d.imageSize) (x y : Int) (c : TriColor) :
    ∃ d', d.writePixel x y c = some d' ∧ d'.sizeV = d.sizeV ∧ d'.sizeH = d.sizeH ∧
      d'.imageSize = d.imageSize := by
  rcases d with ⟨v, w, isz, bb, br, rot⟩
  simp only at h8 hsz
  cases rot <;>
    · simp only [Display.writePixel]
      split
      · exact ⟨_, rfl, rfl, rfl, rfl⟩
      · rename_i hin
        rw [if_pos]
        · cases c <;> exact ⟨_, rfl, rfl, rfl, rfl⟩
        · refine lt_of_lt_of_le (index_lt_imageSize h8 ?_ ?_) hsz <;> omega

/-- CLAIM C9 — In-bounds index safety: on any display whose parameters
satisfy `SIZE_H % 8 = 0` and `IMAGE_SIZE = SIZE_V * (SIZE_H / 8)` (true of
all eight provided display type aliases), `draw_iter` never fails its
index assertion for any pixel iterator: drawing is total.  Since the two
Rust buffers have length `IMAGE_SIZE`, the established bound
`index < IMAGE_SIZE` also makes every buffer access in bounds. -/
theorem C9_index_safety (d : Display) (ps : List ((Int × Int) × TriColor))
    (h8 : d.sizeH % 8 = 0) (hsz : d.imageSize = d.sizeV * (d.sizeH / 8)) :
    (d.drawIter ps).isSome = true := by
  induction ps generalizing d with
  | nil => rfl
  | cons p ps ih =>
    rw [drawIter_cons]
    obtain ⟨d1, hw, h1, h2, h3⟩ := writePixel_total h8 (le_of_eq hsz.symm) p.1.1 p.1.2 p.2
    rw [hw, Option.some_bind]
    exact ih d1 (by rw [h2]; exact h8) (by rw [h3, h1, h2]; exact hsz)

/-- Witness for C9: drawing on a 2×8 display with the standard geometry
succeeds. -/
theorem C9_index_safety_witness :
    ((Display.mkDefault 2 8 2).drawIter [((0, 0), TriColor.black)]).isSome = true :=
  C9_index_safety (Display.mkDefault 2 8 2) [((0, 0), TriColor.black)]
    (by decide) (by decide)

/-- Counterexample to CLAIM C2 as stated: on the 2-row × 8-column display
rotated 90°, writing Black at logical (0,0) gives black plane [1,0] (the
code maps (0,0) to physical (W−1, 0) = (7,0), bit mask 1), while the
claim's mapping `(px,py) = (H−1−y, x) = (1,0)` predicts bit mask 64 — the
claim's formulas exchange W and H. -/
theorem C2_rotation_counterexample :
    ((Display.mkDefault 2 8 2).setRotation DisplayRotation.rotate90).writePixel 0 0
        TriColor.black ≠
      some (specWriteAsStated ((Display.mkDefault 2 8 2).setRotation DisplayRotation.rotate90)
        0 0 TriColor.black) := by
  decide

/-- CLAIM C2 (amended) — Rotation remapping with `W` and `H` exchanged in
the claim's formulas: on every display with width a multiple of 8 and
`IMAGE_SIZE = SIZE_V * (SIZE_H / 8)`, the pixel write maps logical (x,y)
by 0°: (x,y); 90°: (W−1−y, x); 180°: (W−1−x, H−1−y); 270°: (y, H−1−x),
and an in-bounds write affects exactly the byte at `py * (W/8) + px/8`
under mask `1 <<< (7 − px % 8)`, White clearing both bits, Black setting
black and clearing red, Red setting red and clearing black (out-of-bounds
writes are dropped). -/
theorem C2_rotation_mapping_amended (d : Display) (x y : Int) (c : TriColor)
    (h8 : d.sizeH % 8 = 0) (hsz : d.imageSize = d.sizeV * (d.sizeH / 8)) :
    d.writePixel x y c = some (specWriteAmended d x y c) := by
  rcases d with ⟨v, w, isz, bb, br, rot⟩
  simp only at h8 hsz
  subst hsz
  have hdvd : (8 : Nat) ∣ w := by omega
  have hidx : ∀ a : Nat, a * w / 8 = a * (w / 8) := fun a => Nat.mul_div_assoc a hdvd
  cases rot
  case rotate0 =>
    simp only [Display.writePixel, specWriteAmended, specWriteWith, specMapAmended]
    split
    · rename_i hclip
      rw [if_neg (by omega)]
    · rename_i hclip
      have hlt : y.toNat * w / 8 + x.toNat / 8 < v * (w / 8) :=
        index_lt_imageSize h8 (by omega) (by omega)
      rw [if_pos hlt, if_pos (by omega)]
      cases c <;> simp only [Option.some_inj] <;> rw [hidx]
  case rotate90 =>
    simp only [Display.writePixel, specWriteAmended, specWriteWith, specMapAmended]
    split
    · rename_i hclip
      rw [if_neg (by omega)]
    · rename_i hclip
      have hlt : x.toNat * w / 8 + ((w : Int) - 1 - y).toNat / 8 < v * (w / 8) :=
        index_lt_imageSize h8 (by omega) (by omega)
      rw [if_pos hlt, if_pos (by omega)]
      cases c <;> simp only [Option.some_inj] <;> rw [hidx]
  case rotate180 =>
    simp only [Display.writePixel, specWriteAmended, specWriteWith, specMapAmended]
    split
    · rename_i hclip
      rw [if_neg (by omega)]
    · rename_i hclip
      have hlt : ((v : Int) - 1 - y).toNat * w / 8 + ((w : Int) - 1 - x).toNat / 8 <
          v * (w / 8) :=
        index_lt_imageSize h8 (by omega) (by omega)
      rw [if_pos hlt, if_pos (by omega)]
      cases c <;> simp only [Option.some_inj] <;> rw [hidx]
  case rotate270 =>
    simp only [Display.writePixel, specWriteAmended, specWriteWith, specMapAmended]
    split
    · rename_i hclip
      rw [if_neg (by omega)]
    · rename_i hclip
      have hlt : ((v : Int) - 1 - x).toNat * w / 8 + y.toNat / 8 < v * (w / 8) :=
        index_lt_imageSize h8 (by omega) (by omega)
      rw [if_pos hlt, if_pos (by omega)]
      cases c <;> simp only [Option.some_inj] <;> rw [hidx]

/-- Witness for the amended C2 on the 2×8 display rotated 90°. -/
theorem C2_rotation_mapping_amended_witness :
    ((Display.mkDefault 2 8 2).setRotation DisplayRotation.rotate90).writePixel 0 0
        TriColor.black =
      some (specWriteAmended ((Display.mkDefault 2 8 2).setRotation DisplayRotation.rotate90)
        0 0 TriColor.black) :=
  C2_rotation_mapping_amended ((Display.mkDefault 2 8 2).setRotation DisplayRotation.rotate90)
    0 0 TriColor.black (by decide) (by decide)

/-- CLAIM C8 — Color round-trip: classifying the 24-bit RGB image of each of
the three colors yields the color back: `from_rgb(to_rgb(c)) = c`. -/
theorem C8_color_round_trip (c : TriColor) : TriColor.ofRgb888 (TriColor.toRgb888 c) = c := by
  cases c <;> decide

/-- CLAIM C10 — Raw 2-bit decoding: 0b00 ↦ White, 0b01 ↦ Black, 0b10 ↦ Red,
and the out-of-protocol 0b11 ↦ Black (the black bit is tested first);
the conversion is total over all four raw values. -/
theorem C10_raw2_decode :
    TriColor.fromRawU2 0b00 = TriColor.white ∧
    TriColor.fromRawU2 0b01 = TriColor.black ∧
    TriColor.fromRawU2 0b10 = TriColor.red ∧
    TriColor.fromRawU2 0b11 = TriColor.black := by
  decide
